import Mathlib

/-!
Verification of the scratch HTTP server (`server.go`).

The repository holds two variants of the same single-threaded HTTP/1.0
server.  The first variant is built directly on raw socket system calls
(`netSocket`, `serveMux.findHandler`, `parseRequest`, `writeHtml`,
`notFound`); the second uses `net.Listen` (`findHandler`, `readRequest`,
`logHandler`, `notFoundHandler`).  Both are embedded below.

Modelling conventions:
* A byte on the wire is modelled as a `Char`; a Go `string`/`[]byte` is a
  `List Char`.  All concrete data in the claims is ASCII, where a byte and
  a character coincide.
* Go maps are modelled as association lists.  Iteration order over a Go
  map is unspecified, so statements about map iteration quantify over
  permutations of the registration list (or exhibit one realizable order).
* A Go panic (e.g. an out-of-range index or slice) is the distinguished
  result `parseResult.panicked`; an error returned as a value is
  `parseResult.errReturn`.
* The standard-library pieces the server calls
  (`textproto.Reader.ReadLine`, `textproto.Reader.ReadMIMEHeader`,
  `textproto.CanonicalMIMEHeaderKey`, `strings.Split`, `strings.Index`,
  `bufio.Reader.Read`, `ioutil.ReadAll`) are embedded following their Go
  semantics on an in-memory byte stream.  Continuation-line folding of
  MIME headers is not exercised by any claim and is not modelled; a
  malformed (colon-free) header line stops header parsing, as
  `ReadMIMEHeader` does when it reports an error (both parsers discard
  that error).
-/

/-! ### ASCII case helpers and canonical MIME header keys -/

/-- Lower-case an ASCII code point, as Go `c | 0x20` does for letters. -/
def lowerN (n : Nat) : Nat := if 65 ≤ n ∧ n ≤ 90 then n + 32 else n

/-- Upper-case an ASCII code point. -/
def upperN (n : Nat) : Nat := if 97 ≤ n ∧ n ≤ 122 then n - 32 else n

/-- The token bytes accepted by Go `textproto.validHeaderFieldByte`:
letters, digits and `!#$%&'*+-.^_|~` (and the backquote). -/
def ValidTok (n : Nat) : Prop :=
  (65 ≤ n ∧ n ≤ 90) ∨ (97 ≤ n ∧ n ≤ 122) ∨ (48 ≤ n ∧ n ≤ 57) ∨
  n = 33 ∨ n = 35 ∨ n = 36 ∨ n = 37 ∨ n = 38 ∨ n = 39 ∨ n = 42 ∨
  n = 43 ∨ n = 45 ∨ n = 46 ∨ n = 94 ∨ n = 95 ∨ n = 96 ∨ n = 124 ∨ n = 126

instance (n : Nat) : Decidable (ValidTok n) := by
  unfold ValidTok; infer_instance

/-- Boolean form of `ValidTok` on a character. -/
def validHeaderFieldChar (c : Char) : Bool := decide (ValidTok c.toNat)

/-- Lower-case an ASCII letter character. -/
def lowerChar (c : Char) : Char := Char.ofNat (lowerN c.toNat)

/-- Upper-case an ASCII letter character. -/
def upperChar (c : Char) : Char := Char.ofNat (upperN c.toNat)

/-- The per-byte loop of Go `textproto.canonicalMIMEHeaderKey`: upper-case
the first byte and every byte following a `-`, lower-case the rest. -/
def canonList : Bool → List Char → List Char
  | _, [] => []
  | up, c :: cs =>
    (if up then upperChar c else lowerChar c) :: canonList (c == '-') cs

/-- Go `textproto.CanonicalMIMEHeaderKey`: keys containing a byte that is
not a valid header-field byte are returned unchanged. -/
def canonicalMIMEHeaderKey (k : List Char) : List Char :=
  if k.all validHeaderFieldChar then canonList true k else k

/-! ### Reading lines and headers from the byte stream -/

/-- Drop one trailing `\r`, as `textproto.ReadLine` does after cutting at
the newline. -/
def stripCR (l : List Char) : List Char :=
  if l.getLast? = some '\r' then l.dropLast else l

/-- `textproto.Reader.ReadLine` on an in-memory stream: cut at the first
`\n`, strip the line terminator, return the line and the remaining bytes.
At end of input the partial line is returned (the server ignores the
error that accompanies it). -/
def readLine (s : List Char) : List Char × List Char :=
  match s.findIdx? (· = '\n') with
  | some i => (stripCR (s.take i), s.drop (i + 1))
  | none => (s, [])

/-- Split a header line at the first `:`; the value has leading spaces and
tabs removed, as `ReadMIMEHeader` does.  A colon-free line is malformed. -/
def splitColon (l : List Char) : Option (List Char × List Char) :=
  match l.findIdx? (· = ':') with
  | some i =>
    some (l.take i, (l.drop (i + 1)).dropWhile (fun c => c == ' ' || c == '\t'))
  | none => none

lemma readLine_snd_length_lt (s : List Char) (h : s ≠ []) :
    (readLine s).2.length < s.length := by
  unfold readLine
  cases hf : s.findIdx? (· = '\n') with
  | some i =>
    simp only [List.length_drop]
    have : 0 < s.length := List.length_pos.mpr h
    omega
  | none =>
    simpa using List.length_pos.mpr h

/-- Header-reading loop, with explicit fuel so that it is structurally
recursive.  Each iteration consumes at least one byte of the stream, so
`s.length + 1` units of fuel always suffice and the out-of-fuel case is
never reached by `readMIMEHeader`. -/
def readMIMEHeaderAux :
    Nat → List Char → List (List Char × List Char) × List Char
  | 0, s => ([], s)
  | fuel + 1, s =>
    let p := readLine s
    if p.1 = [] then ([], p.2)
    else
      match splitColon p.1 with
      | none => ([], p.2)
      | some (k, v) =>
        let q := readMIMEHeaderAux fuel p.2
        ((canonicalMIMEHeaderKey k, v) :: q.1, q.2)

/-- `textproto.Reader.ReadMIMEHeader` on an in-memory stream: read header
lines until a blank line, store each key canonicalized with its value,
and return the header list together with the unread remainder of the
stream. -/
def readMIMEHeader (s : List Char) : List (List Char × List Char) × List Char :=
  readMIMEHeaderAux (s.length + 1) s

/-- `MIMEHeader` lookup: all values stored under the canonical form of the
requested key, in arrival order (Go indexes the map with
`CanonicalMIMEHeaderKey(key)`). -/
def headerValues (hs : List (List Char × List Char)) (k : List Char) :
    List (List Char) :=
  (hs.filter (fun p => p.1 = canonicalMIMEHeaderKey k)).map Prod.snd

/-! ### Go string helpers used by the request-line parsers -/

/-- Go `strings.Split(s, sep)` for a one-character separator. -/
def goSplit (sep : Char) : List Char → List (List Char)
  | [] => [[]]
  | c :: cs =>
    if c = sep then [] :: goSplit sep cs
    else
      match goSplit sep cs with
      | t :: ts => (c :: t) :: ts
      | [] => [[c]]

/-- Go `strings.Index(s, string(c))`: first index of `c`, `-1` if absent. -/
def goIndexChar (s : List Char) (c : Char) : Int :=
  match s.findIdx? (· = c) with
  | some i => (i : Int)
  | none => -1

/-- Go slice expression `s[lo:hi]`: panics (`none`) unless
`0 ≤ lo ≤ hi ≤ len(s)`. -/
def goSlice (s : List Char) (lo hi : Int) : Option (List Char) :=
  if 0 ≤ lo ∧ lo ≤ hi ∧ hi ≤ (s.length : Int) then
    some ((s.take hi.toNat).drop lo.toNat)
  else none

/-- The digit characters printed by `fmt.Fprintf` `%d`. -/
def digitChr (d : Nat) : Char := Char.ofNat (48 + d)

/-- Digit-emitting loop with explicit fuel (a number below `10 ^ fuel` has
at most `fuel` digits, so `n + 1` units of fuel always suffice and the
out-of-fuel case is never reached by `natChars`). -/
def natCharsAux : Nat → Nat → List Char
  | 0, _ => []
  | fuel + 1, n =>
    if n < 10 then [digitChr n]
    else natCharsAux fuel (n / 10) ++ [digitChr (n % 10)]

/-- Decimal rendering of a natural number, as `fmt.Fprintf` `%d` emits. -/
def natChars (n : Nat) : List Char := natCharsAux (n + 1) n

/-! ### Requests and the two request parsers -/

/-- The `request` struct shared by both variants: method, headers (stored
under canonical keys, in arrival order), body, raw URI, protocol. -/
structure request where
  method : List Char
  header : List (List Char × List Char)
  body : List Char
  uri : List Char
  proto : List Char
deriving DecidableEq

/-- Outcome of parsing one request: a `*request`, an error returned as a
value (`(*request, error)`), or a Go panic that crashes the process. -/
inductive parseResult where
  | ok (r : request)
  | errReturn (e : List Char)
  | panicked
deriving DecidableEq

/-- The body of a parse outcome (empty unless the parse succeeded). -/
def resultBody : parseResult → List Char
  | .ok r => r.body
  | _ => []

/-- The method of a parse outcome (empty unless the parse succeeded). -/
def resultMethod : parseResult → List Char
  | .ok r => r.method
  | _ => []

/-- First variant, `parseRequest` (server.go, raw-socket variant): split
the request line on single spaces and index tokens 0..2 (fewer than three
tokens is an out-of-range panic), read MIME headers, and for a non-GET,
non-HEAD method take the whole remaining stream as the body
(`ioutil.ReadAll`; on pure in-memory data `ReadAll` cannot fail, so the
`errReturn` branch of its caller is never taken). -/
def parseRequest (s : List Char) : parseResult :=
  let p := readLine s
  match goSplit ' ' p.1 with
  | m :: u :: pr :: _ =>
    let q := readMIMEHeader p.2
    if m = "GET".toList ∨ m = "HEAD".toList then
      .ok ⟨m, q.1, [], u, pr⟩
    else
      .ok ⟨m, q.1, q.2, u, pr⟩
  | _ => .panicked

/-- Second variant, `readRequest` (server.go, `net.Listen` variant): find
the first two spaces with `strings.Index` and slice out the tokens (Go
slice rules; a missing space produces a panicking slice), read MIME
headers, and for a non-GET method read the body with a single
`bufio.Read` into a 1024-byte buffer, keeping `body[:n]`. -/
def readRequest (s : List Char) : parseResult :=
  let p := readLine s
  let line := p.1
  let s1 := goIndexChar line ' '
  match goSlice line 0 s1 with
  | none => .panicked
  | some m =>
    let tail := line.drop (s1 + 1).toNat
    let s2 := goIndexChar tail ' ' + (s1 + 1)
    match goSlice line (s1 + 1) s2 with
    | none => .panicked
    | some u =>
      match goSlice line (s2 + 1) (line.length : Int) with
      | none => .panicked
      | some pr =>
        let q := readMIMEHeader p.2
        if m = "GET".toList then
          .ok ⟨m, q.1, [], u, pr⟩
        else
          .ok ⟨m, q.1, q.2.take 1024, u, pr⟩

/-! ### Handlers, serve muxes and handler resolution

A handler is modelled by the bytes it writes for a given request (every
reference handler writes a response and returns; the error result of the
first variant's `handlerFunc` is always `nil`). -/

/-- A handler, as the bytes it writes for a request. -/
def handlerFunc : Type := request → List Char

/-- `writeHtml` (first variant): status line, Content-Type,
`Content-Length: len(html)`, blank line, body. -/
def writeHtml (f : request → List Char) : handlerFunc := fun r =>
  "HTTP/1.0 200 OK\r\n".toList ++
  "Content-Type: text/html; charset=utf-8\r\n".toList ++
  ("Content-Length: ".toList ++ natChars (f r).length ++ "\r\n".toList) ++
  "\r\n".toList ++
  f r

/-- `notFound` (first variant): a 404 with `Content-Length: 0`,
`Connection: close` and an empty body. -/
def notFound : handlerFunc := fun _ =>
  ("HTTP/1.0 404 Not Found\r\n" ++
   "Content-Type: text/plain; charset=utf-8\r\n" ++
   "Content-Length: 0\r\n" ++
   "Connection: close\r\n" ++
   "\r\n").toList

/-- The body function registered under `/hello` in the first variant. -/
def helloBody : request → List Char := fun _ => "<h1>Hello world</h1>".toList

/-- The body function registered under `/` in the first variant. -/
def fallbackBody : request → List Char := fun r =>
  "<h1>Using fallback matcher for path: ".toList ++ r.uri ++ "</h1>".toList

/-- `logHandler` (second variant): five writes, with a hard-coded
`Content-Length: 14` and the body `<h1>hello</h1>`. -/
def logHandler : handlerFunc := fun _ =>
  "HTTP/1.0 200 OK\r\n".toList ++
  "Content-Type: text/html; charset=utf-8\r\n".toList ++
  "Content-Length: 14\r\n".toList ++
  "\r\n".toList ++
  "<h1>hello</h1>".toList

/-- `notFoundHandler` (second variant). -/
def notFoundHandler : handlerFunc := fun _ =>
  ("HTTP/1.0 404 Not Found" ++
   "\r\nContent-Type: text/plain; charset=utf-8\r\nConnection: close\r\n\r\n").toList

/-- The route table registered by the first variant's `main`
(`muxes.handle` calls, in program order; a Go map may iterate this in any
permutation). -/
def muxesV1 : List (List Char × handlerFunc) :=
  [("/hello".toList, writeHtml helloBody),
   ("/notfound".toList, notFound),
   ("/".toList, writeHtml fallbackBody)]

/-- The route table registered by the second variant's `main`. -/
def defaultServeMux : List (List Char × handlerFunc) :=
  [("/".toList, logHandler),
   ("/notfound".toList, notFoundHandler)]

/-- One step of `serveMux.findHandler`'s loop: keep the candidate whose
pattern is a prefix of the URI and strictly longer than the best so far.
The Go loop keeps only the handler; the matched pattern is carried along
for specification. -/
def findStep (uri : List Char) (st : Nat × Option (List Char × handlerFunc))
    (kv : List Char × handlerFunc) : Nat × Option (List Char × handlerFunc) :=
  if kv.1.isPrefixOf uri ∧ st.1 < kv.1.length then (kv.1.length, some kv) else st

/-- `serveMux.findHandler` (first variant): scan the table, keeping the
longest matching prefix; `none` models the `"no handler for path"` error. -/
def serveMuxFindHandler (m : List (List Char × handlerFunc)) (uri : List Char) :
    Option (List Char × handlerFunc) :=
  (m.foldl (findStep uri) (0, none)).2

/-- `findHandler` (second variant): return the first table entry whose
pattern is a prefix of the URI, in iteration order; the matched pattern is
carried along for specification. -/
def findHandler (m : List (List Char × handlerFunc)) (uri : List Char) :
    Option (List Char × handlerFunc) :=
  match m with
  | [] => none
  | kv :: rest => if kv.1.isPrefixOf uri then some kv else findHandler rest uri

/-! ### The server loops

Both `main` functions run `for { accept; read; route; write }`.  The model
below captures the loop body's control flow for one accepted connection,
given that connection's incoming bytes:

* first variant (raw sockets): a parse failure is `panic(err)` (and a
  malformed request line panics inside `parseRequest` itself); a dispatch
  error — in particular `findHandler`'s `"no handler for path"` — is
  logged followed by `continue`;
* second variant (`net.Listen`): a read failure panics and a route
  failure is `log.Fatal`, which exits the process.

Neither loop body ever calls `Close` on the accepted connection socket;
the only `Close` in either `main` is the deferred close of the listening
socket. -/

/-- Where the loop goes after handling one connection: back to blocking in
`Accept`, or process termination (panic / `log.Fatal`). -/
inductive loopNext where
  | accepting
  | crashed
deriving DecidableEq

/-- Everything observable about one connection handled by the first
variant's loop body: the bytes written back, whether the loop closed the
connection socket, and where the loop goes next. -/
structure connResult where
  response : List Char
  closed : Bool
  next : loopNext
deriving DecidableEq

/-- The first variant's loop body (lines 239–264): parse, then
`muxes.dispatch`; `panic` on a parse error, log-and-`continue` on a
dispatch error, and no `rw.Close()` anywhere. -/
def handleConn1 (m : List (List Char × handlerFunc)) (s : List Char) :
    connResult :=
  match parseRequest s with
  | .panicked => ⟨[], false, .crashed⟩
  | .errReturn _ => ⟨[], false, .crashed⟩
  | .ok req =>
    match serveMuxFindHandler m req.uri with
    | none => ⟨[], false, .accepting⟩
    | some kv => ⟨kv.2 req, false, .accepting⟩

/-- The first variant's loop body, control flow only. -/
def mainLoopBody1 (m : List (List Char × handlerFunc)) (s : List Char) :
    loopNext :=
  (handleConn1 m s).next

/-- The second variant's loop body (lines 398–427): `panic` on a read
error, `log.Fatal` — process exit — when `findHandler` reports no
matching prefix, otherwise run the handler and loop. -/
def mainLoopBody2 (m : List (List Char × handlerFunc)) (s : List Char) :
    loopNext :=
  match readRequest s with
  | .panicked => .crashed
  | .errReturn _ => .crashed
  | .ok req =>
    match findHandler m req.uri with
    | none => .crashed
    | some _ => .accepting

/-- Socket lifecycle events on accepted connections. -/
inductive sockOp where
  | openConn
  | closeConn
deriving DecidableEq

/-- The connection-socket events of one iteration of the first variant's
loop: `Accept` opens a socket; no `Close` on it follows (`handleConn1`
never closes, and the loop has no other close). -/
def connSockOps : List sockOp := [sockOp.openConn]

/-- The connection-socket events of `n` sequential iterations. -/
def serverSockOps (n : Nat) : List sockOp :=
  (List.replicate n connSockOps).flatten

/-! ### Inspecting emitted responses -/

/-- The bytes following the first blank line (`\r\n\r\n`) of a response:
its body, `none` when the response has no blank line. -/
def afterBlankLine : List Char → Option (List Char)
  | [] => none
  | c :: cs =>
    if c = '\r' ∧ cs.take 3 = ['\n', '\r', '\n'] then some (cs.drop 3)
    else afterBlankLine cs

/-! ### Generic facts about `serveMux.findHandler` -/

lemma foldl_findStep_isSome (uri : List Char)
    (m : List (List Char × handlerFunc))
    (st : Nat × Option (List Char × handlerFunc))
    (h : st.2.isSome = true ∨
      ∃ kv ∈ m, kv.1.isPrefixOf uri = true ∧ st.1 < kv.1.length) :
    ((m.foldl (findStep uri) st).2).isSome = true := by
  induction m generalizing st with
  | nil =>
    rcases h with h | ⟨kv, hmem, _⟩
    · exact h
    · cases hmem
  | cons a rest ih =>
    rw [List.foldl_cons]
    rcases h with h | ⟨kv, hmem, hpre, hlen⟩
    · refine ih _ (Or.inl ?_)
      unfold findStep
      split
      · rfl
      · exact h
    · rcases List.mem_cons.mp hmem with rfl | hmem
      · refine ih _ (Or.inl ?_)
        unfold findStep
        rw [if_pos ⟨hpre, hlen⟩]
        rfl
      · unfold findStep
        split
        · exact ih _ (Or.inl rfl)
        · exact ih _ (Or.inr ⟨kv, hmem, hpre, hlen⟩)

/-! ### Claim theorems (first batch) -/

/-- C10: in the reference route configuration of the first variant, where
`/` is registered, `serveMux.findHandler` returns a handler for every URI
starting with `/`, whatever iteration order the route map produces: the
no-handler error branch is unreachable for such URIs. -/
theorem root_prefix_always_resolves
    (m : List (List Char × handlerFunc)) (hperm : m.Perm muxesV1)
    (uri : List Char) (hpre : ("/".toList).isPrefixOf uri = true) :
    (serveMuxFindHandler m uri).isSome = true := by
  unfold serveMuxFindHandler
  apply foldl_findStep_isSome
  right
  refine ⟨("/".toList, writeHtml fallbackBody), ?_, hpre, by decide⟩
  refine hperm.mem_iff.mpr ?_
  exact List.Mem.tail _ (List.Mem.tail _ (List.Mem.head _))

/-- Witness for C10 at the registration order itself and the URI `/x`. -/
theorem root_prefix_always_resolves_witness :
    (serveMuxFindHandler muxesV1 "/x".toList).isSome = true :=
  root_prefix_always_resolves muxesV1 (List.Perm.refl _) "/x".toList (by decide)

/-- C1: refuted on the second variant.  Under the iteration order that
visits `/` before `/notfound` — both realizable for a Go map — the
request URI `/notfound` starts with the strictly longer registered prefix
`/notfound`, yet `findHandler` returns the handler registered under the
strictly shorter prefix `/`, because it takes the first match in
iteration order (the source comments this as an ignored bug). -/
theorem findHandler_returns_shorter_prefix :
    ("/".toList).length < ("/notfound".toList).length ∧
    ("/notfound".toList).isPrefixOf "/notfound".toList = true ∧
    (findHandler defaultServeMux "/notfound".toList).map Prod.fst =
      some "/".toList := by
  refine ⟨by decide, by decide, by decide⟩

/-- C2: refuted.  A parse failure makes the first variant's loop body
panic (crashing the process), and a route-resolution failure makes the
second variant's loop body call `log.Fatal` (exiting the process); neither
returns to the Accepting state. -/
theorem parse_or_route_failure_crashes :
    mainLoopBody1 muxesV1 "GET /x\r\n\r\n".toList = loopNext.crashed ∧
    mainLoopBody2 defaultServeMux "GET x HTTP/1.0\r\n\r\n".toList =
      loopNext.crashed ∧
    loopNext.crashed ≠ loopNext.accepting := by
  refine ⟨by decide, by decide, by decide⟩

/-- C4: refuted.  On a first line with fewer than three tokens
(`GET /x`), both parsers panic — an out-of-range index in `parseRequest`,
an out-of-range slice in `readRequest` — instead of returning an error
value, so the failure is a process crash, not a parse-failure result. -/
theorem short_request_line_panics :
    parseRequest "GET /x\r\n\r\n".toList = parseResult.panicked ∧
    readRequest "GET /x\r\n\r\n".toList = parseResult.panicked ∧
    ∀ e, parseResult.panicked ≠ parseResult.errReturn e := by
  refine ⟨by decide, by decide, fun e h => parseResult.noConfusion h⟩

/-! ### Claim theorems: unmatched URIs and socket lifecycle -/

/-- The outcome the specification allows for a URI matching no registered
prefix (stated from the spec, for comparison with the code): either a 404
response with an empty body and a `Connection: close` header, or a closed
connection with no response bytes. -/
def specNoMatchOutcome (c : connResult) : Prop :=
  ("HTTP/1.0 404 Not Found\r\n".toList.isPrefixOf c.response = true ∧
   "Connection: close\r\n".toList <:+: c.response ∧
   afterBlankLine c.response = some []) ∨
  (c.closed = true ∧ c.response = [])

/-- C7: refuted on the first variant.  For the request `GET x HTTP/1.0`
(URI `x`, matching no registered prefix) the loop body writes no response
bytes, does not close the connection, and continues — which is neither of
the two outcomes the specification allows.  (The outcome is nevertheless
deterministic: no iteration order of the route map finds a handler.) -/
theorem unmatched_uri_no_response_no_close :
    handleConn1 muxesV1 "GET x HTTP/1.0\r\n\r\n".toList =
      ⟨[], false, loopNext.accepting⟩ ∧
    ¬ specNoMatchOutcome (handleConn1 muxesV1 "GET x HTTP/1.0\r\n\r\n".toList) := by
  constructor
  · decide
  · intro hspec
    rcases hspec with ⟨h404, _, _⟩ | ⟨hclosed, _⟩
    · revert h404
      decide
    · revert hclosed
      decide

/-- C8: refuted.  The first variant's loop body never closes the accepted
connection socket (for any route table and any input), so after `n`
sequential connections `n` sockets were opened and none were closed; the
claim's count of `n` closes fails already at `n = 1`. -/
theorem conn_sockets_never_closed :
    (∀ (m : List (List Char × handlerFunc)) (s : List Char),
      (handleConn1 m s).closed = false) ∧
    (∀ n, (serverSockOps n).count sockOp.openConn = n ∧
      (serverSockOps n).count sockOp.closeConn = 0) ∧
    (serverSockOps 1).count sockOp.closeConn = 0 ∧ (0 : Nat) ≠ 1 := by
  refine ⟨?_, ?_, by decide, by decide⟩
  · intro m s
    unfold handleConn1
    rcases parseRequest s with r | e
    · rcases hf : serveMuxFindHandler m r.uri with _ | kv <;> simp [hf]
    · rfl
    · rfl
  · intro n
    induction n with
    | zero => decide
    | succ k ihk =>
      unfold serverSockOps at ihk ⊢
      rw [List.replicate_succ, List.flatten_cons]
      have h1 : connSockOps.count sockOp.openConn = 1 := by decide
      have h2 : connSockOps.count sockOp.closeConn = 0 := by decide
      constructor
      · rw [List.count_append, h1, ihk.1]
        omega
      · rw [List.count_append, h2, ihk.2]

/-! ### Stream-splitting lemmas for the parsers -/

lemma findIdx?_newline (l rest : List Char) (h : '\n' ∉ l) :
    (l ++ '\n' :: rest).findIdx? (· = '\n') = some l.length := by
  have h1 : l.findIdx? (· = '\n') = none := by
    rw [List.findIdx?_eq_none_iff]
    intro x hx
    simp only [decide_eq_false_iff_not]
    intro heq
    exact h (heq ▸ hx)
  have h2 : ('\n' :: rest).findIdx? (· = '\n') = some 0 := by
    rw [List.findIdx?_cons]
    simp
  rw [List.findIdx?_append, h1, h2]
  simp

lemma readLine_append (l rest : List Char) (h : '\n' ∉ l) :
    readLine (l ++ '\n' :: rest) = (stripCR l, rest) := by
  unfold readLine
  rw [findIdx?_newline l rest h]
  have ht : (l ++ '\n' :: rest).take l.length = l := List.take_left l _
  have hd : (l ++ '\n' :: rest).drop (l.length + 1) = rest := by
    rw [show l ++ '\n' :: rest = (l ++ ['\n']) ++ rest by simp]
    exact List.drop_left' (by simp)
  dsimp only
  rw [ht, hd]

lemma readMIMEHeader_crlf (t : List Char) :
    readMIMEHeader ('\r' :: '\n' :: t) = ([], t) := by
  unfold readMIMEHeader
  simp only [List.length_cons]
  rw [show t.length + 1 + 1 + 1 = (t.length + 2) + 1 by omega]
  unfold readMIMEHeaderAux
  simp [readLine, List.findIdx?_cons, stripCR]

/-- A headerless POST to `/` parses to a request whose body is the entire
remainder of the stream (`ioutil.ReadAll`), whatever its size. -/
lemma parseRequest_post_root (rest : List Char) :
    parseRequest ("POST / HTTP/1.0\r\n\r\n".toList ++ rest) =
      .ok ⟨"POST".toList, [], rest, "/".toList, "HTTP/1.0".toList⟩ := by
  have hs : "POST / HTTP/1.0\r\n\r\n".toList ++ rest =
      "POST / HTTP/1.0\r".toList ++ '\n' :: ('\r' :: '\n' :: rest) := rfl
  rw [hs]
  unfold parseRequest
  rw [readLine_append _ _ (by decide)]
  simp only [readMIMEHeader_crlf]
  rfl

/-! ### Claim theorems: body capture -/

/-- C3, amended part: the body captured by `readRequest` never exceeds
1024 bytes — the single `bufio.Read` into the 1024-byte buffer drops any
excess (`parseRequest` is settled by `parseRequest_body_uncapped`). -/
theorem readRequest_body_capped (s : List Char) :
    (resultBody (readRequest s)).length ≤ 1024 := by
  unfold readRequest
  dsimp only
  split
  · simp [resultBody]
  · split
    · simp [resultBody]
    · split
      · simp [resultBody]
      · split
        · simp [resultBody]
        · simp [resultBody, List.length_take]

/-- C3, counterexample: `parseRequest` reads the body with
`ioutil.ReadAll` and has no cap — a POST with 1025 body bytes yields a
stored body of 1025 bytes, exceeding the claimed 1024-byte cap. -/
theorem parseRequest_body_uncapped :
    (resultBody (parseRequest
      ("POST / HTTP/1.0\r\n\r\n".toList ++ List.replicate 1025 'a'))).length = 1025 ∧
    ¬ (resultBody (parseRequest
      ("POST / HTTP/1.0\r\n\r\n".toList ++ List.replicate 1025 'a'))).length ≤ 1024 := by
  refine ⟨?_, ?_⟩ <;> rw [parseRequest_post_root]
  · show (List.replicate 1025 'a').length = 1025
    rw [List.length_replicate]
  · show ¬ (List.replicate 1025 'a').length ≤ 1024
    rw [List.length_replicate]
    omega

/-! ### Claim theorems: GET/HEAD bodies -/

/-- C5, amended: `parseRequest` skips the body for both GET and HEAD;
`readRequest` skips it only for GET (its method test is `== "GET"`
alone), so only the GET guarantee holds for both parsers. -/
theorem get_head_empty_body :
    (∀ s r, parseRequest s = .ok r →
      (r.method = "GET".toList ∨ r.method = "HEAD".toList) → r.body = []) ∧
    (∀ s r, readRequest s = .ok r → r.method = "GET".toList → r.body = []) := by
  constructor
  · intro s r h hm
    unfold parseRequest at h
    dsimp only at h
    split at h
    · split at h
      · injection h with h2
        subst h2
        rfl
      · rename_i hcond
        injection h with h2
        subst h2
        exact absurd hm hcond
    · exact parseResult.noConfusion h
  · intro s r h hm
    unfold readRequest at h
    dsimp only at h
    split at h
    · exact parseResult.noConfusion h
    · split at h
      · exact parseResult.noConfusion h
      · split at h
        · exact parseResult.noConfusion h
        · split at h
          · injection h with h2
            subst h2
            rfl
          · rename_i hcond
            injection h with h2
            subst h2
            exact absurd hm hcond

/-- C5, counterexample: a HEAD request with trailing bytes makes
`readRequest` store a non-empty body, because its body skip tests only
for GET. -/
theorem readRequest_head_reads_body :
    resultMethod (readRequest "HEAD /x HTTP/1.0\r\n\r\nhello".toList) = "HEAD".toList ∧
    resultBody (readRequest "HEAD /x HTTP/1.0\r\n\r\nhello".toList) = "hello".toList ∧
    "hello".toList ≠ ([] : List Char) := by
  refine ⟨by decide, by decide, by decide⟩

/-- Witness for the amended C5 at a concrete GET request. -/
theorem get_head_empty_body_witness :
    resultBody (parseRequest "GET / HTTP/1.0\r\n\r\n".toList) = [] := by
  have h : parseRequest "GET / HTTP/1.0\r\n\r\n".toList =
      .ok ⟨"GET".toList, [], [], "/".toList, "HTTP/1.0".toList⟩ := by decide
  rw [h]
  exact get_head_empty_body.1 _ _ h (Or.inl rfl)

/-! ### Decomposing `writeHtml` responses -/
lemma afterBlankLine_skip (c : Char) (cs : List Char)
    (h : ¬(c = '\r' ∧ cs.take 3 = ['\n', '\r', '\n'])) :
    afterBlankLine (c :: cs) = afterBlankLine cs := by
  simp only [afterBlankLine]
  rw [if_neg h]

lemma afterBlankLine_append (x t : List Char)
    (h : ∀ s : List Char, s.IsSuffix (x ++ t) → t.length < s.length →
      s.take 4 ≠ ['\r', '\n', '\r', '\n']) :
    afterBlankLine (x ++ t) = afterBlankLine t := by
  induction x with
  | nil => rfl
  | cons c x ih =>
    rw [List.cons_append, afterBlankLine_skip]
    · apply ih
      intro s hs hl
      exact h s (hs.trans (List.suffix_cons c _)) hl
    · intro ⟨hc, htake⟩
      apply h (c :: (x ++ t)) List.suffix_rfl
      · simp only [List.length_cons, List.length_append]
        omega
      · rw [show (4 : Nat) = 3 + 1 from rfl, List.take_succ_cons, hc, htake]

/-- The constant part of a `writeHtml` response before the digits of the
Content-Length value. -/
def respHeaderPrefix : List Char :=
  "HTTP/1.0 200 OK\r\nContent-Type: text/html; charset=utf-8\r\nContent-Length: ".toList

set_option maxRecDepth 4000 in
lemma respHeaderPrefix_clean :
    ∀ sA ∈ respHeaderPrefix.tails, sA ≠ [] →
      (4 ≤ sA.length → sA.take 4 ≠ ['\r', '\n', '\r', '\n']) ∧
      (sA.length < 4 → sA.head? ≠ some '\r') := by decide

lemma digitChr_ne_cr (d : Nat) (h : d < 10) : digitChr d ≠ '\r' := by
  interval_cases d <;> decide

lemma natCharsAux_ne_cr (fuel : Nat) :
    ∀ (n : Nat), ∀ c ∈ natCharsAux fuel n, c ≠ '\r' := by
  induction fuel with
  | zero =>
    intro n c hc
    simp [natCharsAux] at hc
  | succ f ih =>
    intro n c hc
    unfold natCharsAux at hc
    split at hc
    · rename_i hn
      simp only [List.mem_singleton] at hc
      subst hc
      exact digitChr_ne_cr n hn
    · rcases List.mem_append.mp hc with hc1 | hc2
      · exact ih (n / 10) c hc1
      · simp only [List.mem_singleton] at hc2
        subst hc2
        exact digitChr_ne_cr (n % 10) (Nat.mod_lt _ (by omega))

lemma natChars_ne_cr (n : Nat) : ∀ c ∈ natChars n, c ≠ '\r' :=
  natCharsAux_ne_cr (n + 1) n

lemma suffix_window_clean (D : List Char) (hD : ∀ c ∈ D, c ≠ '\r')
    (t s : List Char) (hs : s.IsSuffix ((respHeaderPrefix ++ D) ++ t))
    (hl : t.length < s.length) : s.take 4 ≠ ['\r', '\n', '\r', '\n'] := by
  obtain ⟨p, hp⟩ := hs
  have hlen : p.length + s.length =
      (respHeaderPrefix ++ D).length + t.length := by
    have h0 := congrArg List.length hp
    simp only [List.length_append] at h0
    simp only [List.length_append]
    omega
  have hpx : p.length ≤ (respHeaderPrefix ++ D).length := by omega
  have hsx : s = (respHeaderPrefix ++ D).drop p.length ++ t := by
    have h1 : s = ((respHeaderPrefix ++ D) ++ t).drop p.length := by
      rw [← hp, List.drop_left]
    rw [h1, List.drop_append_eq_append_drop, Nat.sub_eq_zero_of_le hpx,
      List.drop_zero]
  have hx2 : (respHeaderPrefix ++ D).drop p.length =
      respHeaderPrefix.drop p.length ++
        D.drop (p.length - respHeaderPrefix.length) :=
    List.drop_append_eq_append_drop
  by_cases hk : p.length < respHeaderPrefix.length
  · have hz : p.length - respHeaderPrefix.length = 0 := by omega
    have hs2 : s = respHeaderPrefix.drop p.length ++ (D ++ t) := by
      rw [hsx, hx2, hz, List.drop_zero, List.append_assoc]
    have hAne : respHeaderPrefix.drop p.length ≠ [] := by
      intro hnil
      have := congrArg List.length hnil
      simp only [List.length_drop, List.length_nil] at this
      omega
    have hclean := respHeaderPrefix_clean _
      ((List.mem_tails _ _).mpr (List.drop_suffix _ _)) hAne
    by_cases h4 : 4 ≤ (respHeaderPrefix.drop p.length).length
    · have ht4 : s.take 4 = (respHeaderPrefix.drop p.length).take 4 := by
        rw [hs2]
        exact List.take_append_of_le_length h4
      rw [ht4]
      exact hclean.1 h4
    · rcases hc : respHeaderPrefix.drop p.length with _ | ⟨a, as⟩
      · exact absurd hc hAne
      · intro hw
        rw [hs2, hc, List.cons_append,
          show (4 : Nat) = 3 + 1 from rfl, List.take_succ_cons] at hw
        injection hw with h1 h2
        have hhd := hclean.2 (by rw [hc] at h4 ⊢; omega)
        rw [hc] at hhd
        exact hhd (by rw [h1]; rfl)
  · have hA : respHeaderPrefix.drop p.length = [] :=
      List.drop_eq_nil_of_le (by omega)
    have hs2 : s = D.drop (p.length - respHeaderPrefix.length) ++ t := by
      rw [hsx, hx2, hA, List.nil_append]
    have hDne : D.drop (p.length - respHeaderPrefix.length) ≠ [] := by
      intro hnil
      rw [hs2, hnil, List.nil_append] at hl
      omega
    rcases hc : D.drop (p.length - respHeaderPrefix.length) with _ | ⟨d, ds⟩
    · exact absurd hc hDne
    · intro hw
      rw [hs2, hc, List.cons_append,
        show (4 : Nat) = 3 + 1 from rfl, List.take_succ_cons] at hw
      injection hw with h1 h2
      have hd : d ∈ D := by
        have hsuf : D.drop (p.length - respHeaderPrefix.length) <:+ D :=
          List.drop_suffix _ _
        exact hsuf.subset (by rw [hc]; exact List.mem_cons_self _ _)
      exact hD d hd h1

lemma afterBlankLine_header (D body : List Char) (hD : ∀ c ∈ D, c ≠ '\r') :
    afterBlankLine ((respHeaderPrefix ++ D) ++
      ('\r' :: '\n' :: '\r' :: '\n' :: body)) = some body := by
  rw [afterBlankLine_append]
  · simp [afterBlankLine]
  · exact fun s hs hl => suffix_window_clean D hD _ s hs hl

set_option maxRecDepth 4000 in
lemma writeHtml_decompose (f : request → List Char) (r : request) :
    writeHtml f r =
      (respHeaderPrefix ++ natChars (f r).length) ++
        ('\r' :: '\n' :: '\r' :: '\n' :: f r) := by
  unfold writeHtml respHeaderPrefix
  simp only [List.append_assoc]
  rfl

set_option maxRecDepth 8000 in
/-- C6: every `writeHtml` (200) response starts with `HTTP/1.0 200 OK`,
the bytes after its first blank line are exactly the handler body, and it
contains a `Content-Length` header whose printed value is that body's
byte length; `logHandler`'s fixed response satisfies the same properties
with `Content-Length: 14` and a 14-byte body. -/
theorem success_response_status_and_length :
    (∀ (f : request → List Char) (r : request),
      "HTTP/1.0 200 OK\r\n".toList.isPrefixOf (writeHtml f r) = true ∧
      afterBlankLine (writeHtml f r) = some (f r) ∧
      ("Content-Length: ".toList ++ natChars (f r).length ++ "\r\n".toList)
        <:+: writeHtml f r) ∧
    ("HTTP/1.0 200 OK\r\n".toList.isPrefixOf (logHandler ⟨[], [], [], [], []⟩) = true ∧
      afterBlankLine (logHandler ⟨[], [], [], [], []⟩) = some "<h1>hello</h1>".toList ∧
      "Content-Length: 14\r\n".toList <:+: logHandler ⟨[], [], [], [], []⟩ ∧
      ("<h1>hello</h1>".toList).length = 14) := by
  constructor
  · intro f r
    refine ⟨?_, ?_, ?_⟩
    · rw [List.isPrefixOf_iff_prefix, writeHtml_decompose]
      have hsplit : respHeaderPrefix = "HTTP/1.0 200 OK\r\n".toList ++
          "Content-Type: text/html; charset=utf-8\r\nContent-Length: ".toList := by
        decide
      rw [hsplit, List.append_assoc, List.append_assoc]
      exact List.prefix_append _ _
    · rw [writeHtml_decompose]
      exact afterBlankLine_header _ _ (natChars_ne_cr _)
    · refine ⟨"HTTP/1.0 200 OK\r\nContent-Type: text/html; charset=utf-8\r\n".toList,
        '\r' :: '\n' :: f r, ?_⟩
      rw [writeHtml_decompose]
      simp only [List.append_assoc]
      rfl
  · refine ⟨by decide, by decide, ?_, by decide⟩
    exact ⟨"HTTP/1.0 200 OK\r\nContent-Type: text/html; charset=utf-8\r\n".toList,
      "\r\n<h1>hello</h1>".toList, by decide⟩

/-! ### Case-insensitivity of canonical MIME header keys -/

lemma char_toNat_inj {a b : Char} (h : a.toNat = b.toNat) : a = b := by
  have hv : a.val = b.val := UInt32.toNat.inj h
  exact Char.eq_of_val_eq hv

lemma lowerN_upperN {a b : Nat} (h : lowerN a = lowerN b) :
    upperN a = upperN b := by
  unfold lowerN at h
  unfold upperN
  split_ifs at h ⊢ <;> omega

lemma canonChar_caseEq (up : Bool) {c1 c2 : Char}
    (h : lowerN c1.toNat = lowerN c2.toNat) :
    (if up then upperChar c1 else lowerChar c1) =
      (if up then upperChar c2 else lowerChar c2) := by
  cases up with
  | false =>
    show lowerChar c1 = lowerChar c2
    unfold lowerChar
    exact congrArg Char.ofNat h
  | true =>
    show upperChar c1 = upperChar c2
    unfold upperChar
    exact congrArg Char.ofNat (lowerN_upperN h)

lemma beq_dash_caseEq {c1 c2 : Char}
    (h : lowerN c1.toNat = lowerN c2.toNat) :
    (c1 == '-') = (c2 == '-') := by
  have h45 : ('-' : Char).toNat = 45 := by decide
  have hiff : c1 = '-' ↔ c2 = '-' := by
    constructor
    · intro h1
      subst h1
      apply char_toNat_inj
      rw [h45] at h ⊢
      unfold lowerN at h
      split_ifs at h <;> omega
    · intro h2
      subst h2
      apply char_toNat_inj
      rw [h45] at h ⊢
      unfold lowerN at h
      split_ifs at h <;> omega
  by_cases h1 : c1 = '-'
  · simp [h1, hiff.mp h1]
  · have h2 : ¬ c2 = '-' := fun hh => h1 (hiff.mpr hh)
    simp [h1, h2]

lemma validChar_caseEq {c1 c2 : Char}
    (h : lowerN c1.toNat = lowerN c2.toNat) :
    validHeaderFieldChar c1 = validHeaderFieldChar c2 := by
  unfold validHeaderFieldChar
  rw [decide_eq_decide]
  unfold lowerN at h
  unfold ValidTok
  split_ifs at h <;> omega

lemma canonList_caseEq (up : Bool) (k1 k2 : List Char)
    (h : k1.map (fun c => lowerN c.toNat) = k2.map (fun c => lowerN c.toNat)) :
    canonList up k1 = canonList up k2 := by
  induction k1 generalizing up k2 with
  | nil =>
    cases k2 with
    | nil => rfl
    | cons c2 cs2 => simp at h
  | cons c1 cs1 ih =>
    cases k2 with
    | nil => simp at h
    | cons c2 cs2 =>
      simp only [List.map_cons, List.cons.injEq] at h
      obtain ⟨hc, hcs⟩ := h
      show (if up then upperChar c1 else lowerChar c1) :: canonList (c1 == '-') cs1 =
        (if up then upperChar c2 else lowerChar c2) :: canonList (c2 == '-') cs2
      rw [canonChar_caseEq up hc, beq_dash_caseEq hc]
      exact congrArg _ (ih (c2 == '-') cs2 hcs)

lemma allValid_caseEq (k1 k2 : List Char)
    (h : k1.map (fun c => lowerN c.toNat) = k2.map (fun c => lowerN c.toNat)) :
    k1.all validHeaderFieldChar = k2.all validHeaderFieldChar := by
  induction k1 generalizing k2 with
  | nil =>
    cases k2 with
    | nil => rfl
    | cons c2 cs2 => simp at h
  | cons c1 cs1 ih =>
    cases k2 with
    | nil => simp at h
    | cons c2 cs2 =>
      simp only [List.map_cons, List.cons.injEq] at h
      obtain ⟨hc, hcs⟩ := h
      simp only [List.all_cons]
      rw [validChar_caseEq hc, ih cs2 hcs]

lemma canonicalMIMEHeaderKey_caseEq (k1 k2 : List Char)
    (hval : k1.all validHeaderFieldChar = true)
    (h : k1.map (fun c => lowerN c.toNat) = k2.map (fun c => lowerN c.toNat)) :
    canonicalMIMEHeaderKey k1 = canonicalMIMEHeaderKey k2 := by
  have hv2 : k2.all validHeaderFieldChar = true := by
    rw [← allValid_caseEq k1 k2 h]
    exact hval
  unfold canonicalMIMEHeaderKey
  rw [if_pos hval, if_pos hv2]
  exact canonList_caseEq true k1 k2 h

/-- The header list of a parse outcome (empty unless the parse
succeeded). -/
def resultHeader : parseResult → List (List Char × List Char)
  | .ok r => r.header
  | _ => []

set_option maxRecDepth 4000 in
/-- C9: header lookup is case-insensitive for header-field keys (keys
made of valid token bytes), because both storage and lookup go through
`CanonicalMIMEHeaderKey`; and the stored values keep their original
casing — the wire value `TeXt/HTML` is returned verbatim under both
`Content-Type` and `content-type`. -/
theorem header_lookup_case_insensitive :
    (∀ (hs : List (List Char × List Char)) (k1 k2 : List Char),
      k1.all validHeaderFieldChar = true →
      k1.map (fun c => lowerN c.toNat) = k2.map (fun c => lowerN c.toNat) →
      headerValues hs k1 = headerValues hs k2) ∧
    (headerValues (resultHeader (parseRequest
        "POST / HTTP/1.0\r\nContent-Type: TeXt/HTML\r\n\r\nxy".toList))
        "Content-Type".toList = ["TeXt/HTML".toList] ∧
     headerValues (resultHeader (parseRequest
        "POST / HTTP/1.0\r\nContent-Type: TeXt/HTML\r\n\r\nxy".toList))
        "content-type".toList = ["TeXt/HTML".toList]) := by
  refine ⟨?_, by decide, by decide⟩
  intro hs k1 k2 hval hcase
  unfold headerValues
  rw [canonicalMIMEHeaderKey_caseEq k1 k2 hval hcase]

set_option maxRecDepth 4000 in
/-- Witness for C9: `Content-Type` and `content-type` retrieve the same
stored values. -/
theorem header_lookup_case_insensitive_witness :
    headerValues [("Content-Type".toList, "TeXt/HTML".toList)]
      "Content-Type".toList =
    headerValues [("Content-Type".toList, "TeXt/HTML".toList)]
      "content-type".toList :=
  header_lookup_case_insensitive.1 _ "Content-Type".toList "content-type".toList
    (by decide) (by decide)
